import Mathlib

/-!
Verification of the NetWeaver packet engine and IP utilities.

Bytes are modelled as natural numbers below 256, byte spans as `List Nat`,
and machine integers as `Nat` with explicit `% 2^w` where overflow matters.
The C engine sources (`c_core/`) are not part of the checked tree, so the
engine operations (`nw_checksum`, packet crafting, the buffer pool, packet
validation) are modelled from the specification text; the Rust utility
functions (`src/utils/ip.rs`, `src/utils/mod.rs`) are embedded from their
source.
-/

namespace NetWeaver

/-! ## Checksum engine (RFC 1071 one's-complement Internet checksum) -/

/-- One step of end-around carry folding: add the upper bits above 16 back
into the low 16 bits, as in `sum = (sum & 0xFFFF) + (sum >> 16)`. -/
def foldStep (n : Nat) : Nat := n % 65536 + n / 65536

/-- Fuel-bounded iteration of `foldStep` until the value fits in 16 bits,
mirroring the `while (sum >> 16)` loop of a C checksum routine. -/
def foldCarriesFuel : Nat → Nat → Nat
  | 0, n => n
  | f + 1, n => if n < 65536 then n else foldCarriesFuel f (foldStep n)

/-- Fold all carries: `n` itself is enough fuel because each `foldStep`
strictly decreases a value that is at least 65536. -/
def foldCarries (n : Nat) : Nat := foldCarriesFuel n n

/-- Group a byte span into big-endian 16-bit words; a final unpaired byte is
the high byte of a padded word, per the spec's odd-length rule. -/
def toWords : List Nat → List Nat
  | [] => []
  | [b] => [b * 256]
  | b1 :: b2 :: rest => (b1 * 256 + b2) :: toWords rest

/-- The plain sum of the 16-bit words of a byte span. -/
def sumWords (bs : List Nat) : Nat := (toWords bs).sum

/-- Modelled from the spec: `checksum(bytes, length) -> u16` (the C source
`c_core/src/packet_core.c` defining `nw_checksum` is not under `src/`).
Computes the 16-bit one's-complement sum over the byte span, folding
carries, and returns the complement; for odd-length input the final byte
is the high byte of a padded 16-bit word. -/
def nw_checksum (bs : List Nat) : Nat := 65535 - foldCarries (sumWords bs)

/-! ### Carry-folding lemmas -/

theorem foldCarriesFuel_invariant (f : Nat) :
    ∀ n, n ≤ f →
      foldCarriesFuel f n ≤ 65535 ∧
      foldCarriesFuel f n % 65535 = n % 65535 ∧
      (0 < n → 0 < foldCarriesFuel f n) := by
  induction f with
  | zero =>
    intro n hn
    have : n = 0 := Nat.le_zero.mp hn
    subst this
    simp [foldCarriesFuel]
  | succ f ih =>
    intro n hn
    have hunfold : foldCarriesFuel (f + 1) n =
        if n < 65536 then n else foldCarriesFuel f (foldStep n) := rfl
    rw [hunfold]
    by_cases h : n < 65536
    · rw [if_pos h]
      omega
    · rw [if_neg h]
      have hstep : foldStep n ≤ f := by
        simp only [foldStep]
        omega
      have hmod : foldStep n % 65535 = n % 65535 := by
        simp only [foldStep]
        omega
      have hpos : 0 < foldStep n := by
        simp only [foldStep]
        omega
      obtain ⟨h1, h2, h3⟩ := ih (foldStep n) hstep
      refine ⟨h1, ?_, fun _ => h3 hpos⟩
      rw [h2, hmod]

theorem foldCarries_le (n : Nat) : foldCarries n ≤ 65535 :=
  (foldCarriesFuel_invariant n n le_rfl).1

theorem foldCarries_mod (n : Nat) : foldCarries n % 65535 = n % 65535 :=
  (foldCarriesFuel_invariant n n le_rfl).2.1

theorem foldCarries_pos (n : Nat) (h : 0 < n) : 0 < foldCarries n :=
  (foldCarriesFuel_invariant n n le_rfl).2.2 h

theorem foldCarries_zero : foldCarries 0 = 0 := rfl

/-- Verification property of the Internet checksum: adding the computed
checksum back into the one's-complement sum folds to all-ones. -/
theorem checksum_verifies (bs : List Nat) :
    foldCarries (sumWords bs + nw_checksum bs) = 65535 := by
  have hle := foldCarries_le (sumWords bs)
  have hmod := foldCarries_mod (sumWords bs)
  have hpos := foldCarries_pos (sumWords bs)
  have hm : 0 < sumWords bs + nw_checksum bs := by
    simp only [nw_checksum]
    rcases Nat.eq_zero_or_pos (sumWords bs) with h0 | h0
    · rw [h0, foldCarries_zero]
      omega
    · have := hpos h0
      omega
  have hle2 := foldCarries_le (sumWords bs + nw_checksum bs)
  have hmod2 := foldCarries_mod (sumWords bs + nw_checksum bs)
  have hpos2 := foldCarries_pos (sumWords bs + nw_checksum bs) hm
  simp only [nw_checksum] at hle2 hmod2 hpos2 ⊢
  omega

/-! ## Packet model -/

/-- Modelled from the spec: the protocol tag enum of the packet model
(`nw_protocol_t` in the C headers, not under `src/`). -/
inductive nw_protocol where
  | ICMP
  | TCP
  | UDP
  | OTHER
deriving DecidableEq, Repr

/-- Modelled from the spec: the packet model `nw_packet_t` (header fields,
raw bytes, length, protocol tag; ports zero when not applicable). -/
structure nw_packet where
  protocol : nw_protocol
  length : Nat
  src_ip : Nat
  dst_ip : Nat
  src_port : Nat
  dst_port : Nat
  checksum : Nat
  data : List Nat
deriving DecidableEq, Repr

/-- The 8-byte ICMP echo-request message: type 8, code 0, checksum, then
big-endian identifier and sequence number. -/
def icmp_echo_bytes (ck id seq : Nat) : List Nat :=
  [8, 0, ck / 256 % 256, ck % 256,
   id / 256 % 256, id % 256, seq / 256 % 256, seq % 256]

/-- Modelled from the spec: `craft_icmp_echo(dst_ip, id, seq) -> Packet`
(C source not under `src/`): builds an ICMP Echo Request (type 8, code 0)
with embedded identifier and sequence number, computes and embeds the ICMP
checksum over the whole ICMP message, sets `protocol = ICMP`, `dst_ip`,
`length > 0`. -/
def nw_packet_craft_icmp_echo (dst_ip id seq : Nat) : nw_packet :=
  let ck := nw_checksum (icmp_echo_bytes 0 id seq)
  { protocol := .ICMP, length := 8, src_ip := 0, dst_ip := dst_ip,
    src_port := 0, dst_port := 0, checksum := ck,
    data := icmp_echo_bytes ck id seq }

/-- Modelled from the spec: the identifier/sequence part of
`parse(raw_bytes, length)` (C source not under `src/`): decodes the
big-endian id and seq fields from an ICMP echo message, failing on
truncated or non-echo input. -/
def nw_packet_parse_icmp : List Nat → Option (Nat × Nat)
  | t :: _code :: _ck1 :: _ck2 :: i1 :: i2 :: s1 :: s2 :: _rest =>
      if t = 8 ∨ t = 0 then some (i1 * 256 + i2, s1 * 256 + s2) else none
  | _ => none

/-- The 20-byte TCP header of a SYN segment: ports, sequence number 0,
acknowledgment 0, data offset 5, flags SYN, window, checksum, urgent 0. -/
def tcp_syn_header (src_port dst_port ck : Nat) : List Nat :=
  [src_port / 256 % 256, src_port % 256, dst_port / 256 % 256, dst_port % 256,
   0, 0, 0, 0,
   0, 0, 0, 0,
   80, 2,
   255, 255,
   ck / 256 % 256, ck % 256,
   0, 0]

/-- The synthetic pseudo-header for transport checksums: source address,
destination address, zero, protocol number, segment length (big-endian). -/
def pseudo_header (src_ip dst_ip proto seg_len : Nat) : List Nat :=
  [src_ip / 16777216 % 256, src_ip / 65536 % 256, src_ip / 256 % 256, src_ip % 256,
   dst_ip / 16777216 % 256, dst_ip / 65536 % 256, dst_ip / 256 % 256, dst_ip % 256,
   0, proto, seg_len / 256 % 256, seg_len % 256]

/-- Modelled from the spec: `craft_tcp_syn(src_ip, dst_ip, src_port,
dst_port) -> Packet` (C source not under `src/`): builds a minimal TCP
segment with the SYN flag set, engine-chosen initial sequence number, zero
acknowledgment number, and a checksum computed over the pseudo-header plus
TCP header (no payload); sets `protocol = TCP` and all four address/port
fields. -/
def nw_packet_craft_tcp_syn (src_ip dst_ip src_port dst_port : Nat) : nw_packet :=
  let ck := nw_checksum (pseudo_header src_ip dst_ip 6 20 ++ tcp_syn_header src_port dst_port 0)
  { protocol := .TCP, length := 20, src_ip := src_ip, dst_ip := dst_ip,
    src_port := src_port, dst_port := dst_port, checksum := ck,
    data := tcp_syn_header src_port dst_port ck }

/-- Zero out the TCP checksum field (bytes 16 and 17 of the TCP header), as
an independent verifier does before recomputing the checksum. -/
def zero_tcp_checksum_field (bytes : List Nat) : List Nat :=
  (bytes.set 16 0).set 17 0

/-- Modelled from the spec: `validate(packet) -> bool` (C source not under
`src/`): structural sanity check, failing for `length == 0` and for a
protocol tag inconsistent with its declared header size. -/
def nw_packet_validate (p : nw_packet) : Bool :=
  if p.length = 0 then false
  else
    match p.protocol with
    | .ICMP => decide (8 ≤ p.length)
    | .TCP => decide (20 ≤ p.length)
    | .UDP => decide (8 ≤ p.length)
    | .OTHER => true

/-! ## Buffer pool -/

/-- Modelled from the spec: the buffer pool `nw_buffer_pool_t` (C source not
under `src/`): fixed capacity per buffer, total buffer count, a free set,
and the set of checked-out handles; handles are slot indices (§9 arena
design). The `destroyed` flag records that `pool_destroy` ran. -/
structure nw_buffer_pool where
  buffer_size : Nat
  pool_size : Nat
  free : List Nat
  acquired : List Nat
  destroyed : Bool
deriving DecidableEq, Repr

/-- Modelled from the spec: `pool_init(buffer_size, pool_size)`
pre-allocates `pool_size` buffers of `buffer_size` bytes each; all slots
start free. -/
def nw_buffer_pool_init (buffer_size pool_size : Nat) : nw_buffer_pool :=
  { buffer_size := buffer_size, pool_size := pool_size,
    free := List.range pool_size, acquired := [], destroyed := false }

/-- Modelled from the spec: `acquire() -> handle | null` removes one buffer
from the free set and returns a handle to it; returns null (not a blocking
wait) when the free set is empty; fails cleanly on a destroyed pool. -/
def nw_buffer_pool_acquire (p : nw_buffer_pool) : Option Nat × nw_buffer_pool :=
  if p.destroyed then (none, p)
  else
    match p.free with
    | [] => (none, p)
    | h :: rest => (some h, { p with free := rest, acquired := h :: p.acquired })

/-- Modelled from the spec: `release(handle)` returns a previously acquired
handle to the free set; releasing a handle not currently checked out, or
releasing on a destroyed pool, fails without corrupting state. -/
def nw_buffer_pool_release (p : nw_buffer_pool) (h : Nat) : Bool × nw_buffer_pool :=
  if p.destroyed then (false, p)
  else if p.acquired.contains h then
    (true, { p with free := h :: p.free, acquired := p.acquired.erase h })
  else (false, p)

/-- Modelled from the spec: `pool_destroy()` frees all backing memory and
marks the pool destroyed. -/
def nw_buffer_pool_destroy (_p : nw_buffer_pool) : nw_buffer_pool :=
  { buffer_size := 0, pool_size := 0, free := [], acquired := [], destroyed := true }

/-- Run `n` sequential `acquire` calls, collecting the returned handles and
the final pool state. -/
def acquireSeq : Nat → nw_buffer_pool → List (Option Nat) × nw_buffer_pool
  | 0, p => ([], p)
  | n + 1, p =>
      let step := nw_buffer_pool_acquire p
      let rest := acquireSeq n step.2
      (step.1 :: rest.1, rest.2)

theorem toWords_append_even :
    ∀ bs l : List Nat, bs.length % 2 = 0 →
      toWords (bs ++ l) = toWords bs ++ toWords l := by
  intro bs
  induction bs using toWords.induct with
  | case1 =>
    intro l _
    simp [toWords]
  | case2 b =>
    intro l h
    simp at h
  | case3 b1 b2 rest ih =>
    intro l h
    have hr : rest.length % 2 = 0 := by
      simp only [List.length_cons] at h
      omega
    simp only [List.cons_append, toWords, List.append_eq, ih l hr]

/-- C1: `checksum(bytes, length)` returns the 16-bit one's-complement
Internet checksum: the result fits in 16 bits, adding it back into the
one's-complement sum of the span folds to all-ones (it is the complement
of the folded sum), and for odd-length input the final byte acts as the
high byte of a padded 16-bit word (padding with a zero byte leaves the
checksum unchanged). -/
theorem nw_checksum_spec (bs : List Nat) (b : Nat) :
    nw_checksum bs ≤ 65535 ∧
    foldCarries (sumWords bs + nw_checksum bs) = 65535 ∧
    (bs.length % 2 = 0 → nw_checksum (bs ++ [b]) = nw_checksum (bs ++ [b, 0])) := by
  refine ⟨by simp [nw_checksum], checksum_verifies bs, fun h => ?_⟩
  have h1 : toWords (bs ++ [b]) = toWords bs ++ toWords [b] := toWords_append_even bs [b] h
  have h2 : toWords (bs ++ [b, 0]) = toWords bs ++ toWords [b, 0] := toWords_append_even bs [b, 0] h
  simp only [nw_checksum, sumWords, h1, h2, toWords, List.sum_append,
    List.sum_cons, List.sum_nil, Nat.add_zero]

theorem nw_checksum_spec_witness :
    nw_checksum [69, 0, 0, 60, 28, 70, 64, 0] ≤ 65535 ∧
    foldCarries (sumWords [69, 0, 0, 60, 28, 70, 64, 0] +
      nw_checksum [69, 0, 0, 60, 28, 70, 64, 0]) = 65535 ∧
    nw_checksum ([69, 0, 0, 60, 28, 70, 64, 0] ++ [1]) =
      nw_checksum ([69, 0, 0, 60, 28, 70, 64, 0] ++ [1, 0]) := by
  obtain ⟨h1, h2, h3⟩ := nw_checksum_spec [69, 0, 0, 60, 28, 70, 64, 0] 1
  exact ⟨h1, h2, h3 (by decide)⟩

/-- C3: for every `dst_ip`, `id` and `seq` (in 16-bit range), the crafted
ICMP echo packet has protocol ICMP, positive length, the requested
destination address, and parsing its bytes recovers `id` and `seq`. -/
theorem craft_icmp_echo_spec (dst_ip id seq : Nat)
    (hid : id < 65536) (hseq : seq < 65536) :
    (nw_packet_craft_icmp_echo dst_ip id seq).protocol = nw_protocol.ICMP ∧
    0 < (nw_packet_craft_icmp_echo dst_ip id seq).length ∧
    (nw_packet_craft_icmp_echo dst_ip id seq).dst_ip = dst_ip ∧
    nw_packet_parse_icmp (nw_packet_craft_icmp_echo dst_ip id seq).data
      = some (id, seq) := by
  refine ⟨rfl, ?_, rfl, ?_⟩
  · show (0 : Nat) < 8
    omega
  · show nw_packet_parse_icmp
      (icmp_echo_bytes (nw_checksum (icmp_echo_bytes 0 id seq)) id seq) = some (id, seq)
    simp only [icmp_echo_bytes, nw_packet_parse_icmp]
    rw [if_pos (Or.inl trivial)]
    simp only [Option.some.injEq, Prod.mk.injEq]
    omega

theorem craft_icmp_echo_spec_witness :
    (nw_packet_craft_icmp_echo 134744072 1234 1).protocol = nw_protocol.ICMP ∧
    0 < (nw_packet_craft_icmp_echo 134744072 1234 1).length ∧
    (nw_packet_craft_icmp_echo 134744072 1234 1).dst_ip = 134744072 ∧
    nw_packet_parse_icmp (nw_packet_craft_icmp_echo 134744072 1234 1).data
      = some (1234, 1) :=
  craft_icmp_echo_spec 134744072 1234 1 (by decide) (by decide)

/-- C4: for every source/destination address and port pair, the crafted
TCP SYN packet has protocol TCP, preserves all four address and port
fields, and its embedded checksum equals the checksum independently
recomputed over the pseudo-header (source, destination, protocol number 6,
segment length) concatenated with the TCP header with its checksum field
zeroed. -/
theorem craft_tcp_syn_spec (src_ip dst_ip sp dp : Nat) :
    (nw_packet_craft_tcp_syn src_ip dst_ip sp dp).protocol = nw_protocol.TCP ∧
    (nw_packet_craft_tcp_syn src_ip dst_ip sp dp).src_ip = src_ip ∧
    (nw_packet_craft_tcp_syn src_ip dst_ip sp dp).dst_ip = dst_ip ∧
    (nw_packet_craft_tcp_syn src_ip dst_ip sp dp).src_port = sp ∧
    (nw_packet_craft_tcp_syn src_ip dst_ip sp dp).dst_port = dp ∧
    (nw_packet_craft_tcp_syn src_ip dst_ip sp dp).checksum
      = nw_checksum (pseudo_header src_ip dst_ip 6
          (nw_packet_craft_tcp_syn src_ip dst_ip sp dp).length ++
          zero_tcp_checksum_field (nw_packet_craft_tcp_syn src_ip dst_ip sp dp).data) :=
  ⟨rfl, rfl, rfl, rfl, rfl, rfl⟩

/-- C5: a packet whose length field is zero never validates. -/
theorem packet_validate_zero_length (p : nw_packet) (h : p.length = 0) :
    nw_packet_validate p = false := by
  simp [nw_packet_validate, h]

theorem packet_validate_zero_length_witness :
    nw_packet_validate ⟨nw_protocol.OTHER, 0, 0, 0, 0, 0, 0, []⟩ = false :=
  packet_validate_zero_length ⟨nw_protocol.OTHER, 0, 0, 0, 0, 0, 0, []⟩ rfl

/-- C2: from a pool initialized with `pool_size = 10`, ten sequential
acquires all succeed and return pairwise-distinct handles, an eleventh
acquire with no intervening release returns null, and a release followed
by an acquire returns the freed handle. -/
theorem buffer_pool_ten_acquires_spec :
    ((acquireSeq 10 (nw_buffer_pool_init 1024 10)).1.all Option.isSome = true) ∧
    (acquireSeq 10 (nw_buffer_pool_init 1024 10)).1.Nodup ∧
    (nw_buffer_pool_acquire (acquireSeq 10 (nw_buffer_pool_init 1024 10)).2).1 = none ∧
    (nw_buffer_pool_acquire
      (nw_buffer_pool_release (acquireSeq 10 (nw_buffer_pool_init 1024 10)).2 0).2).1
      = some 0 := by
  decide

/-- C6: after `pool_destroy`, every acquire returns null and every release
fails, in both cases leaving the destroyed pool state unchanged. -/
theorem pool_destroy_rejects (p : nw_buffer_pool) (h : Nat) :
    (nw_buffer_pool_acquire (nw_buffer_pool_destroy p)).1 = none ∧
    (nw_buffer_pool_acquire (nw_buffer_pool_destroy p)).2 = nw_buffer_pool_destroy p ∧
    (nw_buffer_pool_release (nw_buffer_pool_destroy p) h).1 = false ∧
    (nw_buffer_pool_release (nw_buffer_pool_destroy p) h).2 = nw_buffer_pool_destroy p := by
  simp [nw_buffer_pool_acquire, nw_buffer_pool_release, nw_buffer_pool_destroy]

/-! ## IPv4 utilities (`src/utils/ip.rs`) -/

/-- An IPv4 address as four octets, as in `std::net::Ipv4Addr`. -/
structure Ipv4Addr where
  a : Fin 256
  b : Fin 256
  c : Fin 256
  d : Fin 256
deriving DecidableEq, Repr

/-- Embeds `ipv4_to_u32` (`src/utils/ip.rs`): `u32::from(ip)` packs the
octets big-endian. -/
def ipv4_to_u32 (ip : Ipv4Addr) : Nat :=
  ip.a.val * 16777216 + ip.b.val * 65536 + ip.c.val * 256 + ip.d.val

/-- Embeds `u32_to_ipv4` (`src/utils/ip.rs`): `Ipv4Addr::from(n)` splits a
32-bit value into big-endian octets. -/
def u32_to_ipv4 (n : Nat) : Ipv4Addr :=
  ⟨⟨n / 16777216 % 256, by omega⟩, ⟨n / 65536 % 256, by omega⟩,
   ⟨n / 256 % 256, by omega⟩, ⟨n % 256, by omega⟩⟩

/-- Embeds `is_private` (`src/utils/ip.rs`): true exactly when the first
octet matches `10 | 172 | 192`. -/
def is_private (ip : Ipv4Addr) : Bool :=
  decide (ip.a.val = 10 ∨ ip.a.val = 172 ∨ ip.a.val = 192)

/-! ## Dotted-quad string conversion

The C string conversion routines (`nw_ip_str_to_int`, `nw_ip_int_to_str`)
are modelled from the spec; strings are lists of ASCII codes (46 is the
dot, 48–57 the digits). -/

/-- Decimal digit string of one octet value (no leading zeros). -/
def octetChars (n : Nat) : List Nat :=
  if n < 10 then [48 + n]
  else if n < 100 then [48 + n / 10, 48 + n % 10]
  else [48 + n / 100, 48 + n / 10 % 10, 48 + n % 10]

/-- Modelled from the spec: `ip_int_to_str(u32, out_buf, out_len)` (C source
not under `src/`) renders the address as the canonical dotted-quad decimal
string. -/
def nw_ip_int_to_str (n : Nat) : List Nat :=
  octetChars (n / 16777216 % 256) ++ 46 ::
    (octetChars (n / 65536 % 256) ++ 46 ::
      (octetChars (n / 256 % 256) ++ 46 :: octetChars (n % 256)))

/-- Split a character list at every dot. -/
def splitDots : List Nat → List (List Nat)
  | [] => [[]]
  | c :: rest =>
      if c = 46 then [] :: splitDots rest
      else
        match splitDots rest with
        | [] => [[c]]
        | g :: gs => (c :: g) :: gs

/-- Rejoin dot-separated groups. -/
def joinDots : List (List Nat) → List Nat
  | [] => []
  | [g] => g
  | g :: g2 :: gs => g ++ 46 :: joinDots (g2 :: gs)

/-- Decimal value of a digit group. -/
def charsVal (g : List Nat) : Nat :=
  g.foldl (fun acc c => acc * 10 + (c - 48)) 0

/-- A digit character code. -/
def isDigitB (c : Nat) : Bool := decide (48 ≤ c ∧ c ≤ 57)

/-- A canonical decimal octet: one to three digits, no leading zero, value
at most 255. -/
def isCanonOctet (g : List Nat) : Bool :=
  match g with
  | [] => false
  | [c] => isDigitB c
  | c :: rest =>
      isDigitB c && decide (c ≠ 48) && rest.all isDigitB &&
      decide (rest.length ≤ 2) && decide (charsVal (c :: rest) ≤ 255)

/-- A valid dotted-quad IPv4 string: four canonical octets joined by dots. -/
def isValidDotted (s : List Nat) : Bool :=
  match splitDots s with
  | [g1, g2, g3, g4] =>
      isCanonOctet g1 && isCanonOctet g2 && isCanonOctet g3 && isCanonOctet g4
  | _ => false

/-- Modelled from the spec: `ip_str_to_int(str) -> u32` (C source not under
`src/`) parses a dotted-quad string into a packed big-endian 32-bit value;
the result on invalid input is unspecified, modelled as 0. -/
def nw_ip_str_to_int (s : List Nat) : Nat :=
  match splitDots s with
  | [g1, g2, g3, g4] =>
      charsVal g1 * 16777216 + charsVal g2 * 65536 + charsVal g3 * 256 + charsVal g4
  | _ => 0

theorem splitDots_ne_nil : ∀ s : List Nat, splitDots s ≠ [] := by
  intro s
  match s with
  | [] => simp [splitDots]
  | c :: rest =>
    simp only [splitDots]
    by_cases h : c = 46
    · simp [h]
    · rw [if_neg h]
      cases hsd : splitDots rest with
      | nil => simp
      | cons g gs => simp

theorem joinDots_splitDots : ∀ s : List Nat, joinDots (splitDots s) = s := by
  intro s
  induction s with
  | nil => rfl
  | cons c rest ih =>
    simp only [splitDots]
    cases hsd : splitDots rest with
    | nil => exact absurd hsd (splitDots_ne_nil rest)
    | cons g gs =>
      rw [hsd] at ih
      by_cases h : c = 46
      · rw [if_pos h, h]
        simp only [joinDots, List.nil_append]
        rw [ih]
      · rw [if_neg h]
        cases gs with
        | nil =>
          simp only [joinDots] at ih ⊢
          rw [ih]
        | cons g2 gs2 =>
          simp only [joinDots, List.cons_append] at ih ⊢
          rw [ih]

theorem canonOctet_val_le (g : List Nat) (h : isCanonOctet g = true) :
    charsVal g ≤ 255 := by
  match g with
  | [] => simp [isCanonOctet] at h
  | [c] =>
    simp only [isCanonOctet, isDigitB, decide_eq_true_eq] at h
    simp only [charsVal, List.foldl_cons, List.foldl_nil]
    omega
  | c1 :: c2 :: rest =>
    simp only [isCanonOctet, Bool.and_eq_true, decide_eq_true_eq] at h
    exact h.2

theorem octetChars_charsVal (g : List Nat) (h : isCanonOctet g = true) :
    octetChars (charsVal g) = g := by
  match g with
  | [] => simp [isCanonOctet] at h
  | [c] =>
    simp only [isCanonOctet, isDigitB, decide_eq_true_eq] at h
    simp only [charsVal, List.foldl_cons, List.foldl_nil, octetChars]
    rw [if_pos (by omega)]
    simp only [List.cons.injEq, and_true]
    omega
  | [c1, c2] =>
    simp only [isCanonOctet, isDigitB, List.all_cons, List.all_nil, Bool.and_true,
      Bool.and_eq_true, decide_eq_true_eq, charsVal, List.foldl_cons, List.foldl_nil] at h
    simp only [charsVal, List.foldl_cons, List.foldl_nil, octetChars]
    rw [if_neg (by omega), if_pos (by omega)]
    simp only [List.cons.injEq, and_true]
    constructor
    · omega
    · omega
  | [c1, c2, c3] =>
    simp only [isCanonOctet, isDigitB, List.all_cons, List.all_nil, Bool.and_true,
      Bool.and_eq_true, decide_eq_true_eq, charsVal, List.foldl_cons, List.foldl_nil] at h
    simp only [charsVal, List.foldl_cons, List.foldl_nil, octetChars]
    rw [if_neg (by omega), if_neg (by omega)]
    simp only [List.cons.injEq, and_true]
    refine ⟨by omega, by omega, by omega⟩
  | c1 :: c2 :: c3 :: c4 :: rest =>
    simp only [isCanonOctet, Bool.and_eq_true, decide_eq_true_eq, List.length_cons] at h
    omega

/-- C7: converting a valid dotted-quad string to its 32-bit value and back
reproduces the string, and on the Rust side `u32_to_ipv4` and `ipv4_to_u32`
are mutually inverse for every address and every 32-bit value. -/
theorem ip_roundtrip_spec :
    (∀ s : List Nat, isValidDotted s = true → nw_ip_int_to_str (nw_ip_str_to_int s) = s) ∧
    (∀ ip : Ipv4Addr, u32_to_ipv4 (ipv4_to_u32 ip) = ip) ∧
    (∀ n : Nat, n < 4294967296 → ipv4_to_u32 (u32_to_ipv4 n) = n) := by
  refine ⟨?_, ?_, ?_⟩
  · intro s hs
    simp only [isValidDotted] at hs
    split at hs
    case h_2 => simp at hs
    case h_1 g1 g2 g3 g4 heq =>
      simp only [Bool.and_eq_true] at hs
      obtain ⟨⟨⟨hc1, hc2⟩, hc3⟩, hc4⟩ := hs
      have hv1 := canonOctet_val_le g1 hc1
      have hv2 := canonOctet_val_le g2 hc2
      have hv3 := canonOctet_val_le g3 hc3
      have hv4 := canonOctet_val_le g4 hc4
      have hjoin := joinDots_splitDots s
      rw [heq] at hjoin
      simp only [joinDots] at hjoin
      simp only [nw_ip_str_to_int, heq]
      have e1 : (charsVal g1 * 16777216 + charsVal g2 * 65536 + charsVal g3 * 256 +
          charsVal g4) / 16777216 % 256 = charsVal g1 := by omega
      have e2 : (charsVal g1 * 16777216 + charsVal g2 * 65536 + charsVal g3 * 256 +
          charsVal g4) / 65536 % 256 = charsVal g2 := by omega
      have e3 : (charsVal g1 * 16777216 + charsVal g2 * 65536 + charsVal g3 * 256 +
          charsVal g4) / 256 % 256 = charsVal g3 := by omega
      have e4 : (charsVal g1 * 16777216 + charsVal g2 * 65536 + charsVal g3 * 256 +
          charsVal g4) % 256 = charsVal g4 := by omega
      simp only [nw_ip_int_to_str, e1, e2, e3, e4,
        octetChars_charsVal g1 hc1, octetChars_charsVal g2 hc2,
        octetChars_charsVal g3 hc3, octetChars_charsVal g4 hc4]
      exact hjoin
  · intro ip
    obtain ⟨⟨a, ha⟩, ⟨b, hb⟩, ⟨c, hc⟩, ⟨d, hd⟩⟩ := ip
    simp only [ipv4_to_u32, u32_to_ipv4, Ipv4Addr.mk.injEq, Fin.mk.injEq]
    refine ⟨by omega, by omega, by omega, by omega⟩
  · intro n hn
    simp only [ipv4_to_u32, u32_to_ipv4]
    omega

theorem ip_roundtrip_spec_witness :
    nw_ip_int_to_str (nw_ip_str_to_int
        [49, 57, 50, 46, 49, 54, 56, 46, 49, 46, 49, 48, 48]) =
      [49, 57, 50, 46, 49, 54, 56, 46, 49, 46, 49, 48, 48] ∧
    u32_to_ipv4 (ipv4_to_u32 ⟨192, 168, 1, 100⟩) = ⟨192, 168, 1, 100⟩ ∧
    ipv4_to_u32 (u32_to_ipv4 3232235876) = 3232235876 := by
  obtain ⟨h1, h2, h3⟩ := ip_roundtrip_spec
  exact ⟨h1 _ (by decide), h2 _, h3 _ (by decide)⟩

/-- C9: `is_private` returns true exactly when the first octet is 10, 172
or 192, regardless of the remaining octets; in particular 172.15.0.1 and
192.0.2.1 are classified private. -/
theorem is_private_spec (ip : Ipv4Addr) :
    (is_private ip = true ↔ (ip.a.val = 10 ∨ ip.a.val = 172 ∨ ip.a.val = 192)) ∧
    is_private ⟨172, 15, 0, 1⟩ = true ∧
    is_private ⟨192, 0, 2, 1⟩ = true := by
  refine ⟨?_, by decide, by decide⟩
  simp [is_private]

/-! ## Timestamps and CIDR ranges (`src/utils/mod.rs`) -/

/-- Embeds `get_timestamp_us` (`src/utils/mod.rs:8`): it returns
`SystemTime::now().duration_since(UNIX_EPOCH).as_micros() as u64`, a pure
function of whatever microsecond reading the wall clock yields, truncated
to 64 bits. `SystemTime` is the adjustable wall clock, so consecutive
readings carry no ordering guarantee. -/
def get_timestamp_us (wall_clock_us : Nat) : Nat :=
  wall_clock_us % 18446744073709551616

/-- C8: the timestamp source is not monotonic: when the wall clock steps
backwards between two calls (here from reading 2000 to reading 1000), the
later call returns a strictly smaller value. -/
theorem get_timestamp_us_not_monotonic :
    ¬ (get_timestamp_us 2000 ≤ get_timestamp_us 1000) := by
  decide

/-- Embeds the prefix-length acceptance check of `parse_cidr`
(`src/utils/mod.rs:47`): every parsed prefix up to 32, including 0, is
accepted. -/
def parse_cidr_prefix_ok (pfx : Nat) : Bool := decide (pfx ≤ 32)

/-- Embeds `cidr_to_range` (`src/utils/mod.rs:54`) under Rust debug-build
semantics, with `none` modelling an arithmetic-overflow panic. The source
computes `mask = !0u32 << (32 - pfx)` — an overflowing shift when
`32 - pfx = 32`, i.e. `pfx = 0` (and an underflowing subtraction when
`pfx > 32`) — then `network = ip & mask`, `broadcast = network | !mask`
(here `!mask = 4294967295 - mask`, as `mask` has only high bits set), and
collects `network + 1 .. broadcast` (half-open), where `network + 1` also
overflows when `network = u32::MAX`. -/
def cidr_to_range (ip pfx : Nat) : Option (List Nat) :=
  if 32 < pfx then none
  else if 32 - pfx = 32 then none
  else
    let mask := (4294967295 <<< (32 - pfx)) % 4294967296
    let network := ip.land mask
    let broadcast := network.lor (4294967295 - mask)
    if 4294967295 < network + 1 then none
    else some (List.range' (network + 1) (broadcast - (network + 1)))

/-- C10: `parse_cidr` accepts prefix length 0, but evaluating
`cidr_to_range` at prefix 0 reaches the overflowing shift
`!0u32 << 32` and panics instead of returning the covered addresses
(and at 255.255.255.255/32 the `network + 1` computation overflows),
while an interior prefix such as 192.168.1.0/30 evaluates normally. -/
theorem cidr_to_range_prefix_zero_panics :
    parse_cidr_prefix_ok 0 = true ∧
    cidr_to_range 167772160 0 = none ∧
    parse_cidr_prefix_ok 32 = true ∧
    cidr_to_range 4294967295 32 = none ∧
    cidr_to_range 3232235776 30 = some [3232235777, 3232235778] := by
  refine ⟨by decide, by decide, by decide, by decide, ?_⟩
  decide

end NetWeaver
